import Mathlib

/-!
Verification of the kamapack divergence core: the compact count summary data
model, the Naive and Dirichlet divergence estimators, the switchboard
dispatcher (from default_divergence.py) and the posterior-weight evaluator
measureMu (from the auxiliary definitions module).

Counts, multiplicities and totals are modelled as rationals (they are exact
numbers in the source); the estimator arithmetic, which involves logarithms,
square roots and the Gamma function, lives in the reals.  Fallible functions
(the estimators raise on an unknown measure, the switchboard on unknown
unit, measure or method) return an Except value.
-/

namespace Kamapack

/-- Compact count summary of a pair of experiments (the compACT object read by
the divergence estimators): parallel lists of distinct count values for the
two experiments and their multiplicities, the per-experiment totals, the
a-priori category count and the per-experiment observed category counts. -/
structure CompactDiv where
  nn_A : List ℚ
  nn_B : List ℚ
  ff : List ℚ
  N_A : ℚ
  N_B : ℚ
  K : ℚ
  Kobs_A : ℚ
  Kobs_B : ℚ

/-- Rows of the summary: one entry per distinct count pair, as
(count in A, count in B, multiplicity). -/
def rowsOf (c : CompactDiv) : List (ℚ × ℚ × ℚ) :=
  c.nn_A.zip (c.nn_B.zip c.ff)

/-- Kullback-Leibler plug-in sum over rows (frequency A, frequency B,
multiplicity): dot product of the multiplicities with hA * log (hA / hB). -/
noncomputable def klCore (rows : List (ℝ × ℝ × ℝ)) : ℝ :=
  (rows.map (fun r => r.2.2 * (r.1 * Real.log (r.1 / r.2.1)))).sum

/-- Jensen-Shannon plug-in sum over rows (frequency A, frequency B,
multiplicity), symmetrized against the midpoint mixture. -/
noncomputable def jsCore (rows : List (ℝ × ℝ × ℝ)) : ℝ :=
  0.5 * (rows.map (fun r =>
    r.2.2 * (r.1 * Real.log (r.1 / (0.5 * (r.1 + r.2.1)))
      + r.2.1 * Real.log (r.2.1 / (0.5 * (r.1 + r.2.1)))))).sum

def measureMsg : String :=
  "Choose measure between Kullback-Leibler and Jensen-Shannon."

def unitMsg : String :=
  "Unknown unit, please choose amongst ln, log2, log10."

def cmwMsg : String :=
  "Unknown method CMW for the chosen measure."

def methodMsg : String :=
  "The chosen method is unknown."

/-- Naive estimator: rows with a zero count in either experiment are deleted,
the surviving counts are turned into frequencies by dividing by the full
totals N_A and N_B, and the chosen divergence formula is applied. -/
noncomputable def Naive (c : CompactDiv) (measure : String) : Except String ℝ :=
  let kept := (rowsOf c).filter (fun r => decide (0 < r.1 ∧ 0 < r.2.1))
  let hh : List (ℝ × ℝ × ℝ) :=
    kept.map (fun r => ((r.1 : ℝ) / (c.N_A : ℝ), (r.2.1 : ℝ) / (c.N_B : ℝ), (r.2.2 : ℝ)))
  if measure = "Kullback-Leibler" then .ok (klCore hh)
  else if measure = "Jensen-Shannon" then .ok (jsCore hh)
  else .error measureMsg

/-- Dirichlet estimator with pseudocounts a and b: every row is kept, counts
are shifted by the pseudocount and normalized by the total plus the
pseudocount times the sum of the multiplicities. -/
noncomputable def Dirichlet (c : CompactDiv) (a b : ℝ) (measure : String) :
    Except String ℝ :=
  let sumff : ℝ := ((c.ff.sum : ℚ) : ℝ)
  let NAa : ℝ := (c.N_A : ℝ) + a * sumff
  let NBb : ℝ := (c.N_B : ℝ) + b * sumff
  let hh : List (ℝ × ℝ × ℝ) :=
    (rowsOf c).map (fun r => (((r.1 : ℝ) + a) / NAa, ((r.2.1 : ℝ) + b) / NBb, (r.2.2 : ℝ)))
  if measure = "Kullback-Leibler" then .ok (klCore hh)
  else if measure = "Jensen-Shannon" then .ok (jsCore hh)
  else .error measureMsg

/-- Logarithm-unit table: natural log is the reference, log2 and log10 rescale
by the corresponding constant; any other unit (including an omitted one,
modelled as none) is unknown. -/
noncomputable def unitConvOf : Option String → Option ℝ
  | none => none
  | some u =>
    if u = "ln" then some 1
    else if u = "log2" then some (1 / Real.log 2)
    else if u = "log10" then some (1 / Real.log 10)
    else none

/-- Switchboard dispatcher: validates the unit and the measure, resolves the
method name to an estimator call (the external CMW estimator is passed in as
a function argument, as the source imports it from a separate module), and
rescales the estimate by the unit conversion factor. -/
noncomputable def switchboard (cmw : CompactDiv → ℝ) (c : CompactDiv)
    (method : String) (unit : Option String) (measure : String) :
    Except String ℝ :=
  match unitConvOf unit with
  | none => .error unitMsg
  | some conv =>
    if ¬ (measure = "Kullback-Leibler" ∨ measure = "Jensen-Shannon") then
      .error measureMsg
    else
      (if method = "naive" then Naive c measure
       else if method = "CMW" then
         if ¬ measure = "Kullback-Leibler" then .error cmwMsg
         else .ok (cmw c)
       else if method = "Jeffreys" then Dirichlet c 0.5 0.5 measure
       else if method = "Laplace" then Dirichlet c 1 1 measure
       else if method = "SG" then
         Dirichlet c (1 / (c.Kobs_A : ℝ)) (1 / (c.Kobs_B : ℝ)) measure
       else if method = "minimax" then
         Dirichlet c (Real.sqrt (c.N_A : ℝ) / (c.Kobs_A : ℝ))
           (Real.sqrt (c.N_B : ℝ) / (c.Kobs_B : ℝ)) measure
       else .error methodMsg).map (fun est => conv * est)

/-- Exchange the two experiments of a compact summary: counts, totals and
observed category counts swap roles; the multiplicities and the a-priori
category count are shared. -/
def swapExp (c : CompactDiv) : CompactDiv :=
  ⟨c.nn_B, c.nn_A, c.ff, c.N_B, c.N_A, c.K, c.Kobs_B, c.Kobs_A⟩

/-- Compact count summary of a single experiment (the compACT object read by
measureMu). -/
structure CompactExp where
  N : ℚ
  nn : List ℚ
  ff : List ℚ
  K : ℚ

/-- Real log-gamma: the real part of the log-gamma function (the source takes
the real part of scipy loggamma; Real.log takes the log of the absolute
value, so this agrees wherever Gamma is nonzero). -/
noncomputable def LogGmm (x : ℝ) : ℝ :=
  Real.log (Real.Gamma x)

/-- Posterior-weight evaluator: the exponential of the log-domain
Dirichlet-multinomial marginal likelihood weight. -/
noncomputable def measureMu (alpha : ℝ) (c : CompactExp) : ℝ :=
  Real.exp (LogGmm ((c.K : ℝ) * alpha) - (c.K : ℝ) * LogGmm alpha
    + ((c.ff.zip c.nn).map (fun p => (p.1 : ℝ) * LogGmm ((p.2 : ℝ) + alpha))).sum
    - LogGmm ((c.N : ℝ) + (c.K : ℝ) * alpha))

/-- Spec-side log weight, written from the spec formula: LogMu =
logGamma(K alpha) - K logGamma(alpha) + sum ff logGamma(nn + alpha) -
logGamma(N + K alpha). -/
noncomputable def specLogMu (alpha : ℝ) (c : CompactExp) : ℝ :=
  LogGmm ((c.K : ℝ) * alpha) - (c.K : ℝ) * LogGmm alpha
    + ((c.ff.zip c.nn).map (fun p => (p.1 : ℝ) * LogGmm ((p.2 : ℝ) + alpha))).sum
    - LogGmm ((c.N : ℝ) + (c.K : ℝ) * alpha)

/-- Example summary used as a concrete instantiation point. -/
def cEx : CompactDiv :=
  ⟨[1, 1], [1, 2], [1, 1], 2, 3, 2, 2, 2⟩

/-- Example single-experiment summary used as a concrete instantiation
point. -/
def cExpEx : CompactExp :=
  ⟨1, [1], [1], 1⟩

/-- Summary whose first category is seen once in experiment A and never in
experiment B, with totals N_A = 2, N_B = 1. -/
def c1exA : CompactDiv :=
  ⟨[1, 1], [0, 1], [1, 1], 2, 1, 2, 2, 1⟩

/-- Same summary as c1exA except that the first category is seen twice in
experiment A, with N_A adjusted accordingly to 3. -/
def c1exB : CompactDiv :=
  ⟨[2, 1], [0, 1], [1, 1], 3, 1, 2, 2, 1⟩

/-- Summary with two differing empirical distributions, used to exhibit the
asymmetry of Kullback-Leibler under experiment swap. -/
def c7ex : CompactDiv :=
  ⟨[3, 1], [1, 1], [1, 1], 4, 2, 2, 2, 2⟩

/-- Summary whose two experiments are mirror images of each other: the
empirical distributions differ, yet the Kullback-Leibler value is unchanged
by the swap. -/
def c7sym : CompactDiv :=
  ⟨[4, 1], [1, 4], [1, 1], 5, 5, 2, 2, 2⟩

lemma mem_zip_self {l f : List ℚ} {r : ℚ × ℚ × ℚ}
    (hr : r ∈ l.zip (l.zip f)) : r.1 = r.2.1 := by
  induction l generalizing f with
  | nil => simp at hr
  | cons a as ih =>
    cases f with
    | nil => simp at hr
    | cons b bs =>
      rcases List.mem_cons.mp hr with h | h
      · rw [h]
      · exact ih h

lemma kl_term_self (f h : ℝ) : f * (h * Real.log (h / h)) = 0 := by
  rcases eq_or_ne h 0 with h0 | h0
  · rw [h0]; ring
  · rw [div_self h0, Real.log_one]; ring

lemma klCore_self {rows : List (ℝ × ℝ × ℝ)}
    (h : ∀ r ∈ rows, r.1 = r.2.1) : klCore rows = 0 := by
  apply List.sum_eq_zero
  intro x hx
  rcases List.mem_map.mp hx with ⟨r, hr, hxr⟩
  rw [← hxr, ← h r hr]
  exact kl_term_self _ _

lemma jsCore_self {rows : List (ℝ × ℝ × ℝ)}
    (h : ∀ r ∈ rows, r.1 = r.2.1) : jsCore rows = 0 := by
  unfold jsCore
  rw [List.sum_eq_zero, mul_zero]
  intro x hx
  rcases List.mem_map.mp hx with ⟨r, hr, hxr⟩
  rw [← hxr, ← h r hr]
  have hmid : (0.5 : ℝ) * (r.1 + r.1) = r.1 := by ring
  rw [hmid]
  rcases eq_or_ne r.1 0 with h0 | h0
  · rw [h0]; ring
  · rw [div_self h0, Real.log_one]; ring

/-- C8: when the two experiments of a compact summary are identical (equal
count lists, equal totals, equal observed category counts), the Naive
estimator and the Dirichlet estimator with any equal pseudocount pair a = b
return zero for both the Kullback-Leibler and the Jensen-Shannon measure. -/
theorem self_divergence_zero (c : CompactDiv)
    (hnn : c.nn_A = c.nn_B) (hN : c.N_A = c.N_B) (hK : c.Kobs_A = c.Kobs_B) :
    Naive c "Kullback-Leibler" = .ok 0 ∧ Naive c "Jensen-Shannon" = .ok 0 ∧
    ∀ a : ℝ, Dirichlet c a a "Kullback-Leibler" = .ok 0 ∧
      Dirichlet c a a "Jensen-Shannon" = .ok 0 := by
  have hrows : ∀ r ∈ rowsOf c, r.1 = r.2.1 := by
    intro r hr
    unfold rowsOf at hr
    rw [hnn] at hr
    exact mem_zip_self hr
  have hkept : ∀ r ∈ (rowsOf c).filter (fun r => decide (0 < r.1 ∧ 0 < r.2.1)),
      r.1 = r.2.1 := fun r hr => hrows r (List.mem_of_mem_filter hr)
  refine ⟨?_, ?_, ?_⟩
  · unfold Naive
    rw [if_pos rfl, klCore_self]
    intro x hx
    rcases List.mem_map.mp hx with ⟨r, hr, hxr⟩
    rw [← hxr]
    simp only
    rw [hkept r hr, hN]
  · unfold Naive
    rw [if_neg (by simp), if_pos rfl, jsCore_self]
    intro x hx
    rcases List.mem_map.mp hx with ⟨r, hr, hxr⟩
    rw [← hxr]
    simp only
    rw [hkept r hr, hN]
  · intro a
    constructor
    · unfold Dirichlet
      rw [if_pos rfl, klCore_self]
      intro x hx
      rcases List.mem_map.mp hx with ⟨r, hr, hxr⟩
      rw [← hxr]
      simp only
      rw [hrows r hr, hN]
    · unfold Dirichlet
      rw [if_neg (by simp), if_pos rfl, jsCore_self]
      intro x hx
      rcases List.mem_map.mp hx with ⟨r, hr, hxr⟩
      rw [← hxr]
      simp only
      rw [hrows r hr, hN]

/-- C8 witness: concrete identical-experiment summary. -/
theorem self_divergence_zero_witness :
    Naive ⟨[2], [2], [1], 2, 2, 1, 1, 1⟩ "Kullback-Leibler" = .ok 0 ∧
    Naive ⟨[2], [2], [1], 2, 2, 1, 1, 1⟩ "Jensen-Shannon" = .ok 0 ∧
    ∀ a : ℝ, Dirichlet ⟨[2], [2], [1], 2, 2, 1, 1, 1⟩ a a "Kullback-Leibler" = .ok 0 ∧
      Dirichlet ⟨[2], [2], [1], 2, 2, 1, 1, 1⟩ a a "Jensen-Shannon" = .ok 0 :=
  self_divergence_zero ⟨[2], [2], [1], 2, 2, 1, 1, 1⟩ rfl rfl rfl

/-- C2: for a positive concentration parameter, the posterior weight equals
the exponential of the spec log-weight formula, and is non-negative. -/
theorem measureMu_spec (alpha : ℝ) (c : CompactExp) (h : 0 < alpha) :
    measureMu alpha c = Real.exp (specLogMu alpha c) ∧ 0 ≤ measureMu alpha c :=
  ⟨rfl, (Real.exp_pos _).le⟩

/-- C2 witness: concrete instantiation at alpha = 1. -/
theorem measureMu_spec_witness :
    (0 : ℝ) < 1 ∧ (measureMu 1 cExpEx = Real.exp (specLogMu 1 cExpEx) ∧
      0 ≤ measureMu 1 cExpEx) :=
  ⟨one_pos, measureMu_spec 1 cExpEx one_pos⟩

/-- Trivial stand-in for the external CMW estimator, used only to instantiate
the switchboard at concrete inputs. -/
def cmwZero : CompactDiv → ℝ := fun _ => 0

lemma Naive_ok (c : CompactDiv) (m : String)
    (hm : m = "Kullback-Leibler" ∨ m = "Jensen-Shannon") :
    ∃ v, Naive c m = .ok v := by
  rcases hm with hm | hm <;> subst hm
  · exact ⟨_, rfl⟩
  · exact ⟨_, rfl⟩

lemma Dirichlet_ok (c : CompactDiv) (a b : ℝ) (m : String)
    (hm : m = "Kullback-Leibler" ∨ m = "Jensen-Shannon") :
    ∃ v, Dirichlet c a b m = .ok v := by
  rcases hm with hm | hm <;> subst hm
  · exact ⟨_, rfl⟩
  · exact ⟨_, rfl⟩

lemma switchboard_some (cmw : CompactDiv → ℝ) (c : CompactDiv)
    (method : String) (unit : Option String) (conv : ℝ) (measure : String)
    (hu : unitConvOf unit = some conv) :
    switchboard cmw c method unit measure =
      (if ¬ (measure = "Kullback-Leibler" ∨ measure = "Jensen-Shannon") then
        .error measureMsg
      else
        (if method = "naive" then Naive c measure
         else if method = "CMW" then
           if ¬ measure = "Kullback-Leibler" then .error cmwMsg
           else .ok (cmw c)
         else if method = "Jeffreys" then Dirichlet c 0.5 0.5 measure
         else if method = "Laplace" then Dirichlet c 1 1 measure
         else if method = "SG" then
           Dirichlet c (1 / (c.Kobs_A : ℝ)) (1 / (c.Kobs_B : ℝ)) measure
         else if method = "minimax" then
           Dirichlet c (Real.sqrt (c.N_A : ℝ) / (c.Kobs_A : ℝ))
             (Real.sqrt (c.N_B : ℝ) / (c.Kobs_B : ℝ)) measure
         else .error methodMsg).map (fun est => conv * est)) := by
  unfold switchboard
  rw [hu]

lemma switchboard_dispatch (cmw : CompactDiv → ℝ) (c : CompactDiv)
    (unit : Option String) (conv : ℝ) (measure : String)
    (hu : unitConvOf unit = some conv)
    (hm : measure = "Kullback-Leibler" ∨ measure = "Jensen-Shannon") :
    switchboard cmw c "naive" unit measure =
      (Naive c measure).map (fun est => conv * est) ∧
    switchboard cmw c "Jeffreys" unit measure =
      (Dirichlet c 0.5 0.5 measure).map (fun est => conv * est) ∧
    switchboard cmw c "Laplace" unit measure =
      (Dirichlet c 1 1 measure).map (fun est => conv * est) ∧
    switchboard cmw c "SG" unit measure =
      (Dirichlet c (1 / (c.Kobs_A : ℝ)) (1 / (c.Kobs_B : ℝ)) measure).map
        (fun est => conv * est) ∧
    switchboard cmw c "minimax" unit measure =
      (Dirichlet c (Real.sqrt (c.N_A : ℝ) / (c.Kobs_A : ℝ))
        (Real.sqrt (c.N_B : ℝ) / (c.Kobs_B : ℝ)) measure).map
        (fun est => conv * est) := by
  rcases hm with hm | hm <;> subst hm <;>
    refine ⟨?_, ?_, ?_, ?_, ?_⟩ <;> (unfold switchboard; rw [hu]) <;> rfl

/-- C4: with a valid unit and measure, the switchboard resolves Jeffreys to
the Dirichlet estimator with a = b = 0.5, Laplace to a = b = 1, SG to
a = 1/Kobs_A and b = 1/Kobs_B, minimax to a = sqrt(N_A)/Kobs_A and
b = sqrt(N_B)/Kobs_B, and naive to the Naive estimator, rescaling by the
unit conversion factor. -/
theorem switchboard_method_table (cmw : CompactDiv → ℝ) (c : CompactDiv)
    (unit : Option String) (conv : ℝ) (measure : String)
    (hu : unitConvOf unit = some conv)
    (hm : measure = "Kullback-Leibler" ∨ measure = "Jensen-Shannon") :
    switchboard cmw c "Jeffreys" unit measure =
      (Dirichlet c 0.5 0.5 measure).map (fun est => conv * est) ∧
    switchboard cmw c "Laplace" unit measure =
      (Dirichlet c 1 1 measure).map (fun est => conv * est) ∧
    switchboard cmw c "SG" unit measure =
      (Dirichlet c (1 / (c.Kobs_A : ℝ)) (1 / (c.Kobs_B : ℝ)) measure).map
        (fun est => conv * est) ∧
    switchboard cmw c "minimax" unit measure =
      (Dirichlet c (Real.sqrt (c.N_A : ℝ) / (c.Kobs_A : ℝ))
        (Real.sqrt (c.N_B : ℝ) / (c.Kobs_B : ℝ)) measure).map
        (fun est => conv * est) ∧
    switchboard cmw c "naive" unit measure =
      (Naive c measure).map (fun est => conv * est) := by
  obtain ⟨h1, h2, h3, h4, h5⟩ := switchboard_dispatch cmw c unit conv measure hu hm
  exact ⟨h2, h3, h4, h5, h1⟩

/-- C4 witness: concrete instantiation with unit ln and the KL measure. -/
theorem switchboard_method_table_witness :
    switchboard cmwZero cEx "Jeffreys" (some "ln") "Kullback-Leibler" =
      (Dirichlet cEx 0.5 0.5 "Kullback-Leibler").map (fun est => (1 : ℝ) * est) ∧
    switchboard cmwZero cEx "Laplace" (some "ln") "Kullback-Leibler" =
      (Dirichlet cEx 1 1 "Kullback-Leibler").map (fun est => (1 : ℝ) * est) ∧
    switchboard cmwZero cEx "SG" (some "ln") "Kullback-Leibler" =
      (Dirichlet cEx (1 / (cEx.Kobs_A : ℝ)) (1 / (cEx.Kobs_B : ℝ))
        "Kullback-Leibler").map (fun est => (1 : ℝ) * est) ∧
    switchboard cmwZero cEx "minimax" (some "ln") "Kullback-Leibler" =
      (Dirichlet cEx (Real.sqrt (cEx.N_A : ℝ) / (cEx.Kobs_A : ℝ))
        (Real.sqrt (cEx.N_B : ℝ) / (cEx.Kobs_B : ℝ)) "Kullback-Leibler").map
        (fun est => (1 : ℝ) * est) ∧
    switchboard cmwZero cEx "naive" (some "ln") "Kullback-Leibler" =
      (Naive cEx "Kullback-Leibler").map (fun est => (1 : ℝ) * est) :=
  switchboard_method_table cmwZero cEx (some "ln") 1 "Kullback-Leibler" rfl
    (Or.inl rfl)

/-- C5: the switchboard fails with a configuration error, never a numeric
result, when the unit is unrecognized (which includes an omitted unit), when
the measure is not Kullback-Leibler or Jensen-Shannon, when the method is
not one of the recognized names, or when the method is CMW with a measure
other than Kullback-Leibler. -/
theorem switchboard_rejects (cmw : CompactDiv → ℝ) (c : CompactDiv)
    (method : String) (unit : Option String) (measure : String) :
    (unitConvOf unit = none →
      switchboard cmw c method unit measure = .error unitMsg) ∧
    (measure ≠ "Kullback-Leibler" → measure ≠ "Jensen-Shannon" →
      ∃ e, switchboard cmw c method unit measure = .error e) ∧
    (method ≠ "naive" → method ≠ "CMW" → method ≠ "Jeffreys" →
      method ≠ "Laplace" → method ≠ "SG" → method ≠ "minimax" →
      ∃ e, switchboard cmw c method unit measure = .error e) ∧
    (method = "CMW" → measure ≠ "Kullback-Leibler" →
      ∃ e, switchboard cmw c method unit measure = .error e) := by
  have errCase : ∀ conv, unitConvOf unit = some conv →
      ¬ (measure = "Kullback-Leibler" ∨ measure = "Jensen-Shannon") →
      switchboard cmw c method unit measure = .error measureMsg := by
    intro conv hu hmeas
    rw [switchboard_some cmw c method unit conv measure hu, if_pos hmeas]
  refine ⟨?_, ?_, ?_, ?_⟩
  · intro h
    unfold switchboard
    rw [h]
  · intro h1 h2
    cases hu : unitConvOf unit with
    | none => exact ⟨unitMsg, by unfold switchboard; rw [hu]⟩
    | some conv => exact ⟨measureMsg, errCase conv hu (by tauto)⟩
  · intro h1 h2 h3 h4 h5 h6
    cases hu : unitConvOf unit with
    | none => exact ⟨unitMsg, by unfold switchboard; rw [hu]⟩
    | some conv =>
      by_cases hmeas : measure = "Kullback-Leibler" ∨ measure = "Jensen-Shannon"
      · refine ⟨methodMsg, ?_⟩
        rw [switchboard_some cmw c method unit conv measure hu,
          if_neg (not_not_intro hmeas), if_neg h1, if_neg h2, if_neg h3,
          if_neg h4, if_neg h5, if_neg h6]
        rfl
      · exact ⟨measureMsg, errCase conv hu hmeas⟩
  · intro hC hne
    subst hC
    cases hu : unitConvOf unit with
    | none => exact ⟨unitMsg, by unfold switchboard; rw [hu]⟩
    | some conv =>
      by_cases hmeas : measure = "Kullback-Leibler" ∨ measure = "Jensen-Shannon"
      · refine ⟨cmwMsg, ?_⟩
        rw [switchboard_some cmw c "CMW" unit conv measure hu,
          if_neg (not_not_intro hmeas),
          if_neg (by decide : ¬ ("CMW" : String) = "naive"),
          if_pos rfl, if_pos hne]
        rfl
      · exact ⟨measureMsg, errCase conv hu hmeas⟩

/-- C5 witness: the rejections at unit log3, at an omitted unit, at measure
Hellinger, at an unknown method, and at CMW with Jensen-Shannon. -/
theorem switchboard_rejects_witness :
    switchboard cmwZero cEx "naive" (some "log3") "Kullback-Leibler" = .error unitMsg ∧
    switchboard cmwZero cEx "naive" none "Kullback-Leibler" = .error unitMsg ∧
    (∃ e, switchboard cmwZero cEx "naive" (some "ln") "Hellinger" = .error e) ∧
    (∃ e, switchboard cmwZero cEx "unknown" (some "ln") "Kullback-Leibler" = .error e) ∧
    (∃ e, switchboard cmwZero cEx "CMW" (some "ln") "Jensen-Shannon" = .error e) :=
  ⟨(switchboard_rejects cmwZero cEx "naive" (some "log3") "Kullback-Leibler").1 rfl,
   (switchboard_rejects cmwZero cEx "naive" none "Kullback-Leibler").1 rfl,
   (switchboard_rejects cmwZero cEx "naive" (some "ln") "Hellinger").2.1
     (by decide) (by decide),
   (switchboard_rejects cmwZero cEx "unknown" (some "ln") "Kullback-Leibler").2.2.1
     (by decide) (by decide) (by decide) (by decide) (by decide) (by decide),
   (switchboard_rejects cmwZero cEx "CMW" (some "ln") "Jensen-Shannon").2.2.2
     rfl (by decide)⟩

/-- C6: for a valid measure and a recognized non-CMW method, the switchboard
result with unit log2 is the unit ln result divided by ln 2, and the result
with unit log10 is the unit ln result divided by ln 10. -/
theorem unit_conversion_linear (cmw : CompactDiv → ℝ) (c : CompactDiv)
    (method : String) (measure : String)
    (hm : measure = "Kullback-Leibler" ∨ measure = "Jensen-Shannon")
    (hmeth : method = "naive" ∨ method = "Jeffreys" ∨ method = "Laplace" ∨
      method = "SG" ∨ method = "minimax") :
    ∃ v : ℝ, switchboard cmw c method (some "ln") measure = .ok v ∧
      switchboard cmw c method (some "log2") measure = .ok (v / Real.log 2) ∧
      switchboard cmw c method (some "log10") measure = .ok (v / Real.log 10) := by
  have hln : unitConvOf (some "ln") = some 1 := rfl
  have hl2 : unitConvOf (some "log2") = some (1 / Real.log 2) := rfl
  have hl10 : unitConvOf (some "log10") = some (1 / Real.log 10) := rfl
  have key : ∀ est : Except String ℝ, ∀ e : ℝ, est = .ok e →
      (∀ conv : ℝ, est.map (fun x => conv * x) = .ok (conv * e)) := by
    intro est e he conv
    rw [he]
    rfl
  rcases hmeth with hmm | hmm | hmm | hmm | hmm <;> subst hmm
  · obtain ⟨e, he⟩ := Naive_ok c measure hm
    refine ⟨e, ?_, ?_, ?_⟩
    · rw [(switchboard_dispatch cmw c (some "ln") 1 measure hln hm).1, key _ e he 1]
      norm_num
    · rw [(switchboard_dispatch cmw c (some "log2") (1 / Real.log 2) measure hl2 hm).1,
        key _ e he (1 / Real.log 2)]
      rw [one_div, inv_mul_eq_div]
    · rw [(switchboard_dispatch cmw c (some "log10") (1 / Real.log 10) measure hl10 hm).1,
        key _ e he (1 / Real.log 10)]
      rw [one_div, inv_mul_eq_div]
  · obtain ⟨e, he⟩ := Dirichlet_ok c 0.5 0.5 measure hm
    refine ⟨e, ?_, ?_, ?_⟩
    · rw [(switchboard_dispatch cmw c (some "ln") 1 measure hln hm).2.1, key _ e he 1]
      norm_num
    · rw [(switchboard_dispatch cmw c (some "log2") (1 / Real.log 2) measure hl2 hm).2.1,
        key _ e he (1 / Real.log 2)]
      rw [one_div, inv_mul_eq_div]
    · rw [(switchboard_dispatch cmw c (some "log10") (1 / Real.log 10) measure hl10 hm).2.1,
        key _ e he (1 / Real.log 10)]
      rw [one_div, inv_mul_eq_div]
  · obtain ⟨e, he⟩ := Dirichlet_ok c 1 1 measure hm
    refine ⟨e, ?_, ?_, ?_⟩
    · rw [(switchboard_dispatch cmw c (some "ln") 1 measure hln hm).2.2.1, key _ e he 1]
      norm_num
    · rw [(switchboard_dispatch cmw c (some "log2") (1 / Real.log 2) measure hl2 hm).2.2.1,
        key _ e he (1 / Real.log 2)]
      rw [one_div, inv_mul_eq_div]
    · rw [(switchboard_dispatch cmw c (some "log10") (1 / Real.log 10) measure hl10 hm).2.2.1,
        key _ e he (1 / Real.log 10)]
      rw [one_div, inv_mul_eq_div]
  · obtain ⟨e, he⟩ := Dirichlet_ok c (1 / (c.Kobs_A : ℝ)) (1 / (c.Kobs_B : ℝ)) measure hm
    refine ⟨e, ?_, ?_, ?_⟩
    · rw [(switchboard_dispatch cmw c (some "ln") 1 measure hln hm).2.2.2.1, key _ e he 1]
      norm_num
    · rw [(switchboard_dispatch cmw c (some "log2") (1 / Real.log 2) measure hl2 hm).2.2.2.1,
        key _ e he (1 / Real.log 2)]
      rw [one_div, inv_mul_eq_div]
    · rw [(switchboard_dispatch cmw c (some "log10") (1 / Real.log 10) measure hl10 hm).2.2.2.1,
        key _ e he (1 / Real.log 10)]
      rw [one_div, inv_mul_eq_div]
  · obtain ⟨e, he⟩ := Dirichlet_ok c (Real.sqrt (c.N_A : ℝ) / (c.Kobs_A : ℝ))
      (Real.sqrt (c.N_B : ℝ) / (c.Kobs_B : ℝ)) measure hm
    refine ⟨e, ?_, ?_, ?_⟩
    · rw [(switchboard_dispatch cmw c (some "ln") 1 measure hln hm).2.2.2.2, key _ e he 1]
      norm_num
    · rw [(switchboard_dispatch cmw c (some "log2") (1 / Real.log 2) measure hl2 hm).2.2.2.2,
        key _ e he (1 / Real.log 2)]
      rw [one_div, inv_mul_eq_div]
    · rw [(switchboard_dispatch cmw c (some "log10") (1 / Real.log 10) measure hl10 hm).2.2.2.2,
        key _ e he (1 / Real.log 10)]
      rw [one_div, inv_mul_eq_div]

/-- C6 witness: concrete instantiation at the naive method with the KL
measure. -/
theorem unit_conversion_linear_witness :
    ∃ v : ℝ, switchboard cmwZero cEx "naive" (some "ln") "Kullback-Leibler" = .ok v ∧
      switchboard cmwZero cEx "naive" (some "log2") "Kullback-Leibler" =
        .ok (v / Real.log 2) ∧
      switchboard cmwZero cEx "naive" (some "log10") "Kullback-Leibler" =
        .ok (v / Real.log 10) :=
  unit_conversion_linear cmwZero cEx "naive" "Kullback-Leibler" (Or.inl rfl)
    (Or.inl rfl)

/-- C10: the unrecognized-measure branch inside the estimators is unreachable
through the switchboard: with a validated measure both Naive and Dirichlet
return a value, and with any other measure the switchboard itself fails
before dispatching to an estimator. -/
theorem estimator_measure_branch_unreachable (c : CompactDiv) (measure : String) :
    ((measure = "Kullback-Leibler" ∨ measure = "Jensen-Shannon") →
      (∃ v, Naive c measure = .ok v) ∧
      ∀ a b : ℝ, ∃ w, Dirichlet c a b measure = .ok w) ∧
    (¬ (measure = "Kullback-Leibler" ∨ measure = "Jensen-Shannon") →
      ∀ (cmw : CompactDiv → ℝ) (method : String) (unit : Option String),
        switchboard cmw c method unit measure = .error unitMsg ∨
        switchboard cmw c method unit measure = .error measureMsg) := by
  constructor
  · intro hm
    exact ⟨Naive_ok c measure hm, fun a b => Dirichlet_ok c a b measure hm⟩
  · intro hm cmw method unit
    cases hu : unitConvOf unit with
    | none =>
      left
      unfold switchboard
      rw [hu]
    | some conv =>
      right
      rw [switchboard_some cmw c method unit conv measure hu, if_pos hm]

/-- C10 witness: the Jensen-Shannon measure is accepted by both estimators,
and the Hellinger measure is stopped at the switchboard. -/
theorem estimator_measure_branch_unreachable_witness :
    ((∃ v, Naive cEx "Jensen-Shannon" = .ok v) ∧
      ∃ w, Dirichlet cEx 1 2 "Jensen-Shannon" = .ok w) ∧
    (switchboard cmwZero cEx "naive" (some "ln") "Hellinger" = .error unitMsg ∨
      switchboard cmwZero cEx "naive" (some "ln") "Hellinger" = .error measureMsg) :=
  ⟨⟨((estimator_measure_branch_unreachable cEx "Jensen-Shannon").1 (Or.inr rfl)).1,
    ((estimator_measure_branch_unreachable cEx "Jensen-Shannon").1 (Or.inr rfl)).2 1 2⟩,
   (estimator_measure_branch_unreachable cEx "Hellinger").2 (by decide) cmwZero
     "naive" (some "ln")⟩

/-- C3: under the data-model invariant sum(ff) = K, the Dirichlet estimator
keeps every category and applies the divergence formula to the adjusted
frequencies (nn_A + a) / (N_A + a K) and (nn_B + b) / (N_B + b K). -/
theorem dirichlet_all_categories (c : CompactDiv) (a b : ℝ)
    (ha : 0 ≤ a) (hb : 0 ≤ b) (hsum : c.ff.sum = c.K) :
    Dirichlet c a b "Kullback-Leibler" =
      .ok (klCore ((rowsOf c).map (fun r =>
        (((r.1 : ℝ) + a) / ((c.N_A : ℝ) + a * (c.K : ℝ)),
         ((r.2.1 : ℝ) + b) / ((c.N_B : ℝ) + b * (c.K : ℝ)), (r.2.2 : ℝ))))) ∧
    Dirichlet c a b "Jensen-Shannon" =
      .ok (jsCore ((rowsOf c).map (fun r =>
        (((r.1 : ℝ) + a) / ((c.N_A : ℝ) + a * (c.K : ℝ)),
         ((r.2.1 : ℝ) + b) / ((c.N_B : ℝ) + b * (c.K : ℝ)), (r.2.2 : ℝ))))) := by
  constructor <;> (unfold Dirichlet; rw [hsum]) <;> rfl

/-- C3 witness: concrete summary whose multiplicities sum to K, with zero
pseudocounts. -/
theorem dirichlet_all_categories_witness :
    (0 : ℝ) ≤ 0 ∧
    cEx.ff.sum = cEx.K ∧
    (Dirichlet cEx 0 0 "Kullback-Leibler" =
      .ok (klCore ((rowsOf cEx).map (fun r =>
        (((r.1 : ℝ) + 0) / ((cEx.N_A : ℝ) + 0 * (cEx.K : ℝ)),
         ((r.2.1 : ℝ) + 0) / ((cEx.N_B : ℝ) + 0 * (cEx.K : ℝ)), (r.2.2 : ℝ))))) ∧
    Dirichlet cEx 0 0 "Jensen-Shannon" =
      .ok (jsCore ((rowsOf cEx).map (fun r =>
        (((r.1 : ℝ) + 0) / ((cEx.N_A : ℝ) + 0 * (cEx.K : ℝ)),
         ((r.2.1 : ℝ) + 0) / ((cEx.N_B : ℝ) + 0 * (cEx.K : ℝ)), (r.2.2 : ℝ)))))) :=
  ⟨le_refl 0, by norm_num [cEx], dirichlet_all_categories cEx 0 0 (le_refl 0) (le_refl 0)
    (by norm_num [cEx])⟩

/-- C1 counterexample: two summaries that differ only in the A-count of a
category unseen in B (A-count 1 versus 2, with N_A adjusted from 2 to 3)
give different Naive Kullback-Leibler results, because the surviving rows
are still normalized by the full total N_A. -/
theorem naive_exclusion_counterexample :
    Naive c1exA "Kullback-Leibler" ≠ Naive c1exB "Kullback-Leibler" := by
  intro h
  simp [Naive, rowsOf, c1exA, c1exB, klCore] at h
  have h8 : (3 : ℝ) * Real.log 2 = Real.log 8 := by
    rw [show (8 : ℝ) = 2 ^ (3 : ℕ) by norm_num, Real.log_pow]
    push_cast
    ring
  have h9 : (2 : ℝ) * Real.log 3 = Real.log 9 := by
    rw [show (9 : ℝ) = 3 ^ (2 : ℕ) by norm_num, Real.log_pow]
    push_cast
    ring
  have hlt : Real.log 8 < Real.log 9 := Real.log_lt_log (by norm_num) (by norm_num)
  linarith

/-- C1 amended: a category with nonzero A-count and zero B-count is excluded
from the Naive sum, so the Naive result does not depend on its A-count when
the total N_A is held fixed; but when N_A is adjusted along with the count
(as the data-model invariant requires), the Naive result does change in
general, since the surviving rows are normalized by the full N_A, and the
Dirichlet result changes as well. -/
theorem naive_exclusion_amended :
    (∀ (measure : String) (x y f : ℚ) (tA tB tF : List ℚ) (NA NB Kq KoA KoB : ℚ),
      0 < x → 0 < y →
      Naive ⟨x :: tA, 0 :: tB, f :: tF, NA, NB, Kq, KoA, KoB⟩ measure =
        Naive ⟨y :: tA, 0 :: tB, f :: tF, NA, NB, Kq, KoA, KoB⟩ measure) ∧
    Naive c1exA "Kullback-Leibler" ≠ Naive c1exB "Kullback-Leibler" ∧
    Dirichlet c1exA 1 1 "Kullback-Leibler" ≠ Dirichlet c1exB 1 1 "Kullback-Leibler" := by
  refine ⟨?_, ?_, ?_⟩
  · intro measure x y f tA tB tF NA NB Kq KoA KoB hx hy
    simp [Naive, rowsOf]
  · intro h
    simp [Naive, rowsOf, c1exA, c1exB, klCore] at h
    have h8 : (3 : ℝ) * Real.log 2 = Real.log 8 := by
      rw [show (8 : ℝ) = 2 ^ (3 : ℕ) by norm_num, Real.log_pow]
      push_cast
      ring
    have h9 : (2 : ℝ) * Real.log 3 = Real.log 9 := by
      rw [show (9 : ℝ) = 3 ^ (2 : ℕ) by norm_num, Real.log_pow]
      push_cast
      ring
    have hlt : Real.log 8 < Real.log 9 := Real.log_lt_log (by norm_num) (by norm_num)
    linarith
  · intro h
    simp [Dirichlet, rowsOf, c1exA, c1exB, klCore] at h
    norm_num at h
    have e1 : Real.log ((3 : ℝ) / 2) = Real.log 3 - Real.log 2 :=
      Real.log_div (by norm_num) (by norm_num)
    have e2 : Real.log ((3 : ℝ) / 4) = Real.log 3 - 2 * Real.log 2 := by
      rw [Real.log_div (by norm_num) (by norm_num),
        show (4 : ℝ) = 2 ^ (2 : ℕ) by norm_num, Real.log_pow]
      push_cast
      ring
    have e3 : Real.log ((9 : ℝ) / 5) = 2 * Real.log 3 - Real.log 5 := by
      rw [Real.log_div (by norm_num) (by norm_num),
        show (9 : ℝ) = 3 ^ (2 : ℕ) by norm_num, Real.log_pow]
      push_cast
      ring
    have e4 : Real.log ((3 : ℝ) / 5) = Real.log 3 - Real.log 5 :=
      Real.log_div (by norm_num) (by norm_num)
    rw [e1, e2, e3, e4] at h
    have e5 : Real.log (9765625 : ℝ) = 10 * Real.log 5 := by
      rw [show (9765625 : ℝ) = 5 ^ (10 : ℕ) by norm_num, Real.log_pow]
      push_cast
      ring
    have e6 : Real.log (23887872 : ℝ) = 6 * Real.log 3 + 15 * Real.log 2 := by
      rw [show (23887872 : ℝ) = 3 ^ (6 : ℕ) * 2 ^ (15 : ℕ) by norm_num,
        Real.log_mul (by norm_num) (by norm_num), Real.log_pow, Real.log_pow]
      push_cast
      ring
    have hlt : Real.log (9765625 : ℝ) < Real.log (23887872 : ℝ) :=
      Real.log_lt_log (by norm_num) (by norm_num)
    rw [e5, e6] at hlt
    linarith

/-- C1 witness: concrete instantiation of the fixed-N_A independence part at
A-counts 1 and 2. -/
theorem naive_exclusion_amended_witness :
    (0 : ℚ) < 1 ∧ (0 : ℚ) < 2 ∧
    Naive ⟨[1, 1], [0, 1], [1, 1], 2, 1, 2, 2, 1⟩ "Kullback-Leibler" =
      Naive ⟨[2, 1], [0, 1], [1, 1], 2, 1, 2, 2, 1⟩ "Kullback-Leibler" :=
  ⟨by norm_num, by norm_num,
    naive_exclusion_amended.1 "Kullback-Leibler" 1 2 1 [1] [1] [1] 2 1 2 2 1
      (by norm_num) (by norm_num)⟩

lemma js_term_comm (u v f : ℝ) :
    f * (v * Real.log (v / (0.5 * (v + u))) + u * Real.log (u / (0.5 * (v + u)))) =
    f * (u * Real.log (u / (0.5 * (u + v))) + v * Real.log (v / (0.5 * (u + v)))) := by
  rw [add_comm v u]
  ring

lemma jsCore_cons (r : ℝ × ℝ × ℝ) (rows : List (ℝ × ℝ × ℝ)) :
    jsCore (r :: rows) =
      0.5 * (r.2.2 * (r.1 * Real.log (r.1 / (0.5 * (r.1 + r.2.1)))
        + r.2.1 * Real.log (r.2.1 / (0.5 * (r.1 + r.2.1))))) + jsCore rows := by
  simp [jsCore]
  ring

lemma js_filter_swap (lA lB lF : List ℚ) (NA NB : ℝ) :
    jsCore (((lB.zip (lA.zip lF)).filter (fun r => decide (0 < r.1 ∧ 0 < r.2.1))).map
      (fun r => ((r.1 : ℝ) / NB, (r.2.1 : ℝ) / NA, (r.2.2 : ℝ)))) =
    jsCore (((lA.zip (lB.zip lF)).filter (fun r => decide (0 < r.1 ∧ 0 < r.2.1))).map
      (fun r => ((r.1 : ℝ) / NA, (r.2.1 : ℝ) / NB, (r.2.2 : ℝ)))) := by
  induction lA generalizing lB lF with
  | nil => cases lB <;> simp [jsCore]
  | cons a as ih =>
    cases lB with
    | nil => simp [jsCore]
    | cons b bs =>
      cases lF with
      | nil => simp [jsCore]
      | cons f fs =>
        by_cases hab : 0 < a ∧ 0 < b
        · have hba : 0 < b ∧ 0 < a := ⟨hab.2, hab.1⟩
          simp only [List.zip_cons_cons, List.filter_cons, hab, hba, decide_True,
            and_self, if_true, decide_eq_true_eq]
          simp only [List.map_cons]
          rw [jsCore_cons, jsCore_cons, ih]
          congr 1
          exact congrArg (fun t => (0.5 : ℝ) * t)
            (js_term_comm ((a : ℝ) / NA) ((b : ℝ) / NB) (f : ℝ))
        · have hba : ¬ (0 < b ∧ 0 < a) := fun hh => hab ⟨hh.2, hh.1⟩
          simp only [List.zip_cons_cons, List.filter_cons]
          rw [if_neg (by simpa using hba), if_neg (by simpa using hab)]
          exact ih bs fs

lemma js_map_swap (lA lB lF : List ℚ) (gA gB : ℚ → ℝ) :
    jsCore ((lB.zip (lA.zip lF)).map (fun r => (gB r.1, gA r.2.1, (r.2.2 : ℝ)))) =
    jsCore ((lA.zip (lB.zip lF)).map (fun r => (gA r.1, gB r.2.1, (r.2.2 : ℝ)))) := by
  induction lA generalizing lB lF with
  | nil => cases lB <;> simp [jsCore]
  | cons a as ih =>
    cases lB with
    | nil => simp [jsCore]
    | cons b bs =>
      cases lF with
      | nil => simp [jsCore]
      | cons f fs =>
        simp only [List.zip_cons_cons, List.map_cons]
        rw [jsCore_cons, jsCore_cons, ih]
        congr 1
        exact congrArg (fun t => (0.5 : ℝ) * t) (js_term_comm (gA a) (gB b) (f : ℝ))

lemma naive_js_swap (c : CompactDiv) :
    Naive (swapExp c) "Jensen-Shannon" = Naive c "Jensen-Shannon" :=
  congrArg Except.ok
    (js_filter_swap c.nn_A c.nn_B c.ff (c.N_A : ℝ) (c.N_B : ℝ))

lemma dirichlet_js_swap (c : CompactDiv) (a b : ℝ) :
    Dirichlet (swapExp c) b a "Jensen-Shannon" = Dirichlet c a b "Jensen-Shannon" :=
  congrArg Except.ok
    (js_map_swap c.nn_A c.nn_B c.ff
      (fun q => ((q : ℝ) + a) / ((c.N_A : ℝ) + a * ((c.ff.sum : ℚ) : ℝ)))
      (fun q => ((q : ℝ) + b) / ((c.N_B : ℝ) + b * ((c.ff.sum : ℚ) : ℝ))))

lemma switchboard_js_swap (cmw : CompactDiv → ℝ) (c : CompactDiv)
    (method : String) (unit : Option String) :
    switchboard cmw (swapExp c) method unit "Jensen-Shannon" =
      switchboard cmw c method unit "Jensen-Shannon" := by
  cases hu : unitConvOf unit with
  | none =>
    unfold switchboard
    rw [hu]
  | some conv =>
    rw [switchboard_some cmw (swapExp c) method unit conv "Jensen-Shannon" hu,
      switchboard_some cmw c method unit conv "Jensen-Shannon" hu]
    have hms : ¬¬("Jensen-Shannon" = "Kullback-Leibler" ∨
        "Jensen-Shannon" = "Jensen-Shannon") := not_not_intro (Or.inr rfl)
    rw [if_neg hms, if_neg hms]
    by_cases h1 : method = "naive"
    · rw [if_pos h1, if_pos h1, naive_js_swap]
    · by_cases h2 : method = "CMW"
      · rw [if_neg h1, if_neg h1,
          if_pos h2, if_pos h2]
        rfl
      · by_cases h3 : method = "Jeffreys"
        · rw [if_neg h1, if_neg h1,
            if_neg h2, if_neg h2, if_pos h3, if_pos h3, dirichlet_js_swap]
        · by_cases h4 : method = "Laplace"
          · rw [if_neg h1, if_neg h1,
              if_neg h2, if_neg h2, if_neg h3, if_neg h3, if_pos h4, if_pos h4,
              dirichlet_js_swap]
          · by_cases h5 : method = "SG"
            · rw [if_neg h1, if_neg h1,
                if_neg h2, if_neg h2, if_neg h3, if_neg h3, if_neg h4, if_neg h4,
                if_pos h5, if_pos h5,
                show (swapExp c).Kobs_A = c.Kobs_B from rfl,
                show (swapExp c).Kobs_B = c.Kobs_A from rfl,
                dirichlet_js_swap]
            · by_cases h6 : method = "minimax"
              · rw [if_neg h1, if_neg h1,
                  if_neg h2, if_neg h2, if_neg h3, if_neg h3, if_neg h4, if_neg h4,
                  if_neg h5, if_neg h5, if_pos h6, if_pos h6,
                  show (swapExp c).N_A = c.N_B from rfl,
                  show (swapExp c).N_B = c.N_A from rfl,
                  show (swapExp c).Kobs_A = c.Kobs_B from rfl,
                  show (swapExp c).Kobs_B = c.Kobs_A from rfl,
                  dirichlet_js_swap]
              · rw [if_neg h1, if_neg h1,
                  if_neg h2, if_neg h2, if_neg h3, if_neg h3, if_neg h4, if_neg h4,
                  if_neg h5, if_neg h5, if_neg h6, if_neg h6]

/-- C7 counterexample: a summary whose two empirical distributions differ
(mirror images of each other) yet whose Naive Kullback-Leibler value is
unchanged by swapping the two experiments. -/
theorem js_symmetry_counterexample :
    c7sym.nn_A.map (fun q => q / c7sym.N_A) ≠
      c7sym.nn_B.map (fun q => q / c7sym.N_B) ∧
    Naive (swapExp c7sym) "Kullback-Leibler" = Naive c7sym "Kullback-Leibler" := by
  constructor
  · simp [c7sym]
    norm_num
  · simp [Naive, rowsOf, swapExp, c7sym, klCore]
    norm_num
    ring

/-- C7 amended: swapping the two experiments leaves every Jensen-Shannon
result unchanged (Naive, Dirichlet with the pseudocount pair swapped along
with the experiments, and the switchboard for every method and unit), while
Kullback-Leibler is not symmetric in general: there is a summary with
differing empirical distributions whose KL value changes under the swap,
though not every differing pair changes it. -/
theorem js_symmetry_amended :
    (∀ c : CompactDiv, Naive (swapExp c) "Jensen-Shannon" = Naive c "Jensen-Shannon") ∧
    (∀ (c : CompactDiv) (a b : ℝ),
      Dirichlet (swapExp c) b a "Jensen-Shannon" = Dirichlet c a b "Jensen-Shannon") ∧
    (∀ (cmw : CompactDiv → ℝ) (c : CompactDiv) (method : String) (unit : Option String),
      switchboard cmw (swapExp c) method unit "Jensen-Shannon" =
        switchboard cmw c method unit "Jensen-Shannon") ∧
    c7ex.nn_A.map (fun q => q / c7ex.N_A) ≠ c7ex.nn_B.map (fun q => q / c7ex.N_B) ∧
    Naive (swapExp c7ex) "Kullback-Leibler" ≠ Naive c7ex "Kullback-Leibler" := by
  refine ⟨naive_js_swap, dirichlet_js_swap, switchboard_js_swap, ?_, ?_⟩
  · simp [c7ex]
  · intro h
    simp [Naive, rowsOf, swapExp, c7ex, klCore] at h
    norm_num at h
    have e1 : Real.log ((2 : ℝ) / 3) = Real.log 2 - Real.log 3 :=
      Real.log_div (by norm_num) (by norm_num)
    have e2 : Real.log ((3 : ℝ) / 2) = Real.log 3 - Real.log 2 :=
      Real.log_div (by norm_num) (by norm_num)
    have e3 : Real.log ((1 : ℝ) / 2) = -Real.log 2 := by
      rw [Real.log_div (by norm_num) (by norm_num), Real.log_one]
      ring
    rw [e1, e2, e3] at h
    have e4 : Real.log (243 : ℝ) = 5 * Real.log 3 := by
      rw [show (243 : ℝ) = 3 ^ (5 : ℕ) by norm_num, Real.log_pow]
      push_cast
      ring
    have e5 : Real.log (256 : ℝ) = 8 * Real.log 2 := by
      rw [show (256 : ℝ) = 2 ^ (8 : ℕ) by norm_num, Real.log_pow]
      push_cast
      ring
    have hlt : Real.log (243 : ℝ) < Real.log (256 : ℝ) :=
      Real.log_lt_log (by norm_num) (by norm_num)
    rw [e4, e5] at hlt
    linarith

/-- C7 witness: concrete instantiation of the Jensen-Shannon swap invariance
at the example summary. -/
theorem js_symmetry_amended_witness :
    Naive (swapExp cEx) "Jensen-Shannon" = Naive cEx "Jensen-Shannon" :=
  js_symmetry_amended.1 cEx

end Kamapack
